import Mathlib

/-!
Agent result extraction, agent session, protocol states and manager ports.

A shallow embedding of `agent/service.go` and `manager/service.go`.
Go byte slices are lists of bytes, a nil slice is `none`, a Go `error` is its
message, and a run-time panic is an explicit outcome.
-/

set_option autoImplicit false

/-- A byte of a Go `[]byte`. -/
abbrev Byte := UInt8

/-- A non-nil Go `[]byte`, as the list of its elements. -/
abbrev Bytes := List Byte

/-- The outcome of running a Go function: it returns a value or it panics
(a run-time error such as an index or a slice bound out of range). -/
inductive Outcome (α : Type) where
  | ret (v : α)
  | panic
  deriving DecidableEq, Repr

/-- The pair `([]byte, error)` returned by the functions of the agent: the
payload is `none` for a nil slice, the error is `none` for a nil error and
otherwise carries the error message. -/
abbrev BytesErr := Option Bytes × Option String

namespace bytes

/-- Scan for `bytes.Index`: `k` is the offset of the remaining input in the
whole input; the first offset at which `sep` is a prefix of the remaining
input is returned, and `-1` when there is none. -/
def indexFrom (sep : Bytes) : Bytes → Nat → Int
  | [], k => if sep.isPrefixOf [] then (k : Int) else -1
  | x :: xs, k => if sep.isPrefixOf (x :: xs) then (k : Int) else indexFrom sep xs (k + 1)

/-- Go `bytes.Index(s, sep)`: the index of the first instance of `sep` in `s`,
or `-1` if `sep` is not present in `s`. -/
def Index (s sep : Bytes) : Int := indexFrom sep s 0

/-- Scan for `bytes.LastIndex`: `acc` is the answer found so far. -/
def lastIndexFrom (sep : Bytes) : Bytes → Nat → Int → Int
  | [], k, acc => if sep.isPrefixOf [] then (k : Int) else acc
  | x :: xs, k, acc =>
      lastIndexFrom sep xs (k + 1) (if sep.isPrefixOf (x :: xs) then (k : Int) else acc)

/-- Go `bytes.LastIndex(s, sep)`: the index of the last instance of `sep` in
`s`, or `-1` if `sep` is not present in `s`. -/
def LastIndex (s sep : Bytes) : Int := lastIndexFrom sep s 0 (-1)

end bytes

/-- Go slice expression `s[lo:hi]` on a byte slice: it panics (here `none`)
unless `0 ≤ lo ≤ hi ≤ cap(s)`. The capacity is taken to be the length; in
`extractResult` the upper bound is a result of `bytes.LastIndex`, which never
exceeds the length (`LastIndex_le_length`), so the two agree there. -/
def sliceExpr (s : Bytes) (lo hi : Int) : Option Bytes :=
  if 0 ≤ lo ∧ lo ≤ hi ∧ hi ≤ (s.length : Int) then
    some ((s.drop lo.toNat).take (hi.toNat - lo.toNat))
  else none

/-- The constant `marker`, the bytes of `"===MODEL_MARKER==="`. -/
def marker : Bytes :=
  [61, 61, 61, 77, 79, 68, 69, 76, 95, 77, 65, 82, 75, 69, 82, 61, 61, 61]

/-- The function `extractResult` of `agent/service.go`. -/
def extractResult (output startMarker endMarker : Bytes) : Outcome BytesErr :=
  let start := bytes.Index output startMarker
  let stop := bytes.LastIndex output endMarker
  if start ≠ -1 ∧ stop ≠ -1 ∧ start < stop then
    match sliceExpr output (start + (startMarker.length : Int)) stop with
    | some modelBytes => Outcome.ret (some modelBytes, none)
    | none => Outcome.panic
  else
    Outcome.ret (none, some "model marker not found in output")

/-- The UTF-8 bytes of an ASCII string literal. -/
def ascii (s : String) : Bytes := s.toList.map (fun c => UInt8.ofNat c.toNat)

/-- The separator `sep` occurs in `s` at offset `k`. -/
def occursAt (sep s : Bytes) (k : Nat) : Prop := k ≤ s.length ∧ sep <+: s.drop k

instance (sep s : Bytes) (k : Nat) : Decidable (occursAt sep s k) := by
  unfold occursAt; infer_instance

/-- The separator `sep` occurs somewhere in `s` (it is a contiguous sublist). -/
def occurs (sep s : Bytes) : Prop := sep <:+: s

instance (sep s : Bytes) : Decidable (occurs sep s) := by
  unfold occurs; infer_instance

/-- The first occurrence of `sep` in `s` starts at offset `i`. -/
def firstOcc (sep s : Bytes) (i : Nat) : Prop :=
  occursAt sep s i ∧ ∀ k, k < i → ¬ occursAt sep s k

instance (sep s : Bytes) (i : Nat) : Decidable (firstOcc sep s i) := by
  unfold firstOcc; infer_instance

/-- The last occurrence of `sep` in `s` starts at offset `j`. -/
def lastOcc (sep s : Bytes) (j : Nat) : Prop :=
  occursAt sep s j ∧ ∀ k, k ≤ s.length → j < k → ¬ occursAt sep s k

instance (sep s : Bytes) (j : Nat) : Decidable (lastOcc sep s j) := by
  unfold lastOcc; infer_instance

/-! The agent service (`agent/service.go`) -/

/-- The constant `resultFilePath`. -/
def resultFilePath : String := "trained_logistic_regression_model.joblib"

/-- What the interpreter subprocess launched by `run` does, as seen by `run`:
the four places where the `os/exec` calls can hand back an error, or an exit
with status 0 together with the bytes then found in the stdout buffer. -/
inductive ProcResult where
  | stdoutPipeErr (msg : String)
  | stderrPipeErr (msg : String)
  | startErr (msg : String)
  | waitErr (msg : String)
  | exited (stdout : Bytes)
  deriving DecidableEq, Repr

/-- The behaviour of one subprocess launch, given the script, the data and
the result path it is launched with. -/
abbrev Proc := Bytes → Bytes → String → ProcResult

/-- The function `run` of `agent/service.go`. The error of `extractResult` is
only logged (`log.Println(err)`); the function then returns `result, nil`.
Reading the in-memory stdout buffer with `io.ReadAll` cannot fail, so the
`log.Fatalf` branch is not reachable. -/
def run (proc : Proc) (algoContent dataContent : Bytes) (resultPath : String) :
    Outcome BytesErr :=
  match proc algoContent dataContent resultPath with
  | ProcResult.stdoutPipeErr err => Outcome.ret (none, some ("error creating stdout pipe: " ++ err))
  | ProcResult.stderrPipeErr err => Outcome.ret (none, some ("error creating stderr pipe: " ++ err))
  | ProcResult.startErr err => Outcome.ret (none, some ("error starting Python script: " ++ err))
  | ProcResult.waitErr err => Outcome.ret (none, some ("python script execution error: " ++ err))
  | ProcResult.exited resultBuffer =>
      let startMarker := marker
      let endMarker := marker
      match extractResult resultBuffer startMarker endMarker with
      | Outcome.panic => Outcome.panic
      | Outcome.ret (result, _) => Outcome.ret (result, none)

/-- The struct `agentService`; `C` is the type `Computation`, declared outside
this file. The slices `algorithms` and `datasets` are lists (nil is `[]`), and
`result` is `none` while it is nil. -/
structure agentService (C : Type) where
  computation : C
  algorithms : List Bytes
  datasets : List Bytes
  result : Option Bytes
  deriving DecidableEq, Repr

/-- The constructor `New`: `&agentService{}`, every field at its zero value. -/
def New (C : Type) [Inhabited C] : agentService C :=
  { computation := default, algorithms := [], datasets := [], result := none }

/-- The method `agentService.Run`; `marshal` is `json.Marshal` on the
computation. It returns the pair `(string, error)` and the updated service. -/
def agentService.Run {C : Type} (marshal : C → Except String String)
    (as : agentService C) (cmp : C) : (String × Option String) × agentService C :=
  match marshal cmp with
  | Except.error err => (("", some err), as)
  | Except.ok cmpJSON => ((cmpJSON, none), { as with computation := cmp })

/-- The method `agentService.Algo`. -/
def agentService.Algo {C : Type} (as : agentService C) (algorithm : Bytes) :
    (String × Option String) × agentService C :=
  (("algo123", none), { as with algorithms := as.algorithms ++ [algorithm] })

/-- The method `agentService.Data`. -/
def agentService.Data {C : Type} (as : agentService C) (dataset : Bytes) :
    (String × Option String) × agentService C :=
  (("dataset456", none), { as with datasets := as.datasets ++ [dataset] })

/-- One invocation of the executor `run`: the algorithm, the dataset and the
result path it was called with. -/
abbrev Invocation := Bytes × Bytes × String

/-- The service together with the record of every invocation of `run` so far
(oldest first). -/
structure World (C : Type) where
  svc : agentService C
  runCalls : List Invocation
  deriving DecidableEq, Repr

/-- The subprocesses of a session: `env n` is the behaviour of the launch made
by the invocation of `run` that follows `n` earlier ones. -/
abbrev Env := Nat → Proc

/-- The method `agentService.Result`. Indexing `as.algorithms[0]` or
`as.datasets[0]` panics when the slice is empty; a panic leaves the fields of
the service as they were. -/
def agentService.Result {C : Type} (env : Env) (w : World C) : Outcome BytesErr × World C :=
  match w.svc.algorithms, w.svc.datasets with
  | algo0 :: _, data0 :: _ =>
      let w1 : World C := { w with runCalls := w.runCalls ++ [(algo0, data0, resultFilePath)] }
      match run (env w.runCalls.length) algo0 data0 resultFilePath with
      | Outcome.panic => (Outcome.panic, w1)
      | Outcome.ret (_, some err) =>
          (Outcome.ret (none, some ("error performing computation: " ++ err)), w1)
      | Outcome.ret (result, none) =>
          (Outcome.ret (result, none), { w1 with svc := { w1.svc with result := result } })
  | _, _ => (Outcome.panic, w)

/-- A staging call on the service. -/
inductive Call (C : Type) where
  | Run (cmp : C)
  | Algo (algorithm : Bytes)
  | Data (dataset : Bytes)

/-- The service after one staging call. -/
def agentService.call {C : Type} (marshal : C → Except String String)
    (as : agentService C) : Call C → agentService C
  | Call.Run cmp => (as.Run marshal cmp).2
  | Call.Algo algorithm => (as.Algo algorithm).2
  | Call.Data dataset => (as.Data dataset).2

/-- The service after a sequence of staging calls, made one after another. -/
def agentService.calls {C : Type} (marshal : C → Except String String)
    (as : agentService C) (cs : List (Call C)) : agentService C :=
  cs.foldl (agentService.call marshal) as

/-- The bytes given to the first `Algo` call of a sequence. -/
def firstAlgo {C : Type} : List (Call C) → Option Bytes
  | [] => none
  | Call.Algo b :: _ => some b
  | _ :: cs => firstAlgo cs

/-- The bytes given to the first `Data` call of a sequence. -/
def firstData {C : Type} : List (Call C) → Option Bytes
  | [] => none
  | Call.Data b :: _ => some b
  | _ :: cs => firstData cs

/-! The protocol state machine -/

/-- The states named in `agent/state_test.go`. -/
inductive state where
  | idle | receivingManifests | receivingAlgorithms | receivingData
  | running | resultsReady | complete
  deriving DecidableEq, Repr

/-- The events named in `agent/state_test.go`. -/
inductive event where
  | start | manifestsReceived | algorithmsReceived | dataReceived
  | runComplete | resultsConsumed
  deriving DecidableEq, Repr

/-- The table `testCases` of `TestStateMachineTransitions`: from-state, event,
expected state. -/
def testCases : List (state × event × state) :=
  [ (state.idle, event.start, state.receivingManifests),
    (state.receivingManifests, event.manifestsReceived, state.receivingAlgorithms),
    (state.receivingAlgorithms, event.algorithmsReceived, state.receivingData),
    (state.receivingData, event.dataReceived, state.running),
    (state.running, event.runComplete, state.resultsReady),
    (state.resultsReady, event.resultsConsumed, state.complete) ]

/-- Modelled from the spec: the transition map of the state machine, whose
source file is not part of the sources at hand (only its test is). The spec
lists the transitions as a table of from-state, event and next state. -/
def Transitions (s : state) (e : event) : Option state :=
  match s, e with
  | state.idle, event.start => some state.receivingManifests
  | state.receivingManifests, event.manifestsReceived => some state.receivingAlgorithms
  | state.receivingAlgorithms, event.algorithmsReceived => some state.receivingData
  | state.receivingData, event.dataReceived => some state.running
  | state.running, event.runComplete => some state.resultsReady
  | state.resultsReady, event.resultsConsumed => some state.complete
  | _, _ => none

/-- Modelled from the spec: the state after the event loop has processed one
event, the source of the loop being absent. A pair in the transition table
moves to the listed state; "any pair not listed is a no-op". -/
def processEvent (s : state) (e : event) : state :=
  match Transitions s e with
  | some next => next
  | none => s

/-! The manager service (`manager/service.go`) -/

/-- A Go signed integer of `w` bits holds the values from `-2^(w-1)` up to
`2^(w-1) - 1`; arithmetic wraps around. This is the value stored when the
mathematical result is `x`. -/
def wrapInt (w : Nat) (x : Int) : Int :=
  (x + 2 ^ (w - 1)) % 2 ^ w - 2 ^ (w - 1)

/-- The statement `x++` on a Go signed integer of `w` bits. -/
def incr (w : Nat) (x : Int) : Int := wrapInt w (x + 1)

/-- The value `x` is representable as a Go signed integer of `w` bits. -/
def inRange (w : Nat) (x : Int) : Prop := -(2 ^ (w - 1)) ≤ x ∧ x < 2 ^ (w - 1)

instance (w : Nat) (x : Int) : Decidable (inRange w x) := by
  unfold inRange; infer_instance

/-- The port fields of `qemu.NetDevConfig` that `Run` touches. -/
structure NetDevConfig where
  HostFwd2 : Int
  HostFwd3 : Int
  deriving DecidableEq, Repr

/-- The port fields of `qemu.Config` that `Run` touches. The type is declared
in package `qemu`; its port fields are Go integers. -/
structure Config where
  HostFwd1 : Int
  NetDevConfig : NetDevConfig
  deriving DecidableEq, Repr

/-- The struct `managerService`, reduced to the field that `Run` changes. -/
structure managerService where
  qemuCfg : Config
  deriving DecidableEq, Repr

/-- Every port field of the configuration is a `w`-bit Go integer. -/
def Config.wellFormed (w : Nat) (c : Config) : Prop :=
  inRange w c.HostFwd1 ∧ inRange w c.NetDevConfig.HostFwd2 ∧ inRange w c.NetDevConfig.HostFwd3

instance (w : Nat) (c : Config) : Decidable (c.wellFormed w) := by
  unfold Config.wellFormed; infer_instance

/-- The port triple of a configuration. -/
def Config.triple (c : Config) : Int × Int × Int :=
  (c.HostFwd1, c.NetDevConfig.HostFwd2, c.NetDevConfig.HostFwd3)

/-- One call of `managerService.Run` as its surroundings decide it: the
payload, the error of `qemu.CreateVM` (`none` for nil) and what the remote
agent answers. -/
structure RunCall where
  computation : Bytes
  createVM : Option String
  agent : Except String String
  deriving Repr

/-- The method `managerService.Run`, for Go integers of `w` bits. It returns
the pair `(string, error)` and the updated service; `qemu.CreateVM` receives
`ms.qemuCfg` as it is on entry. -/
def managerService.Run (w : Nat) (ms : managerService) (c : RunCall) :
    (String × Option String) × managerService :=
  match c.createVM with
  | some err => (("", some err), ms)
  | none =>
      let ms1 : managerService :=
        { qemuCfg :=
            { HostFwd1 := incr w ms.qemuCfg.HostFwd1
              NetDevConfig :=
                { HostFwd2 := incr w ms.qemuCfg.NetDevConfig.HostFwd2
                  HostFwd3 := incr w ms.qemuCfg.NetDevConfig.HostFwd3 } } }
      match c.agent with
      | Except.error err => (("", some err), ms1)
      | Except.ok res => ((res, none), ms1)

/-- The calls of `Run` made one after another on one service: for each call,
the configuration handed to `qemu.CreateVM` and whether the creation
succeeded. -/
def runTrace (w : Nat) : managerService → List RunCall → List (Config × Bool)
  | _, [] => []
  | ms, c :: cs => (ms.qemuCfg, c.createVM.isNone) :: runTrace w (ms.Run w c).2 cs

/-- The port triples handed to `qemu.CreateVM` by the calls whose creation
succeeded, in call order. -/
def successTriples (w : Nat) (ms : managerService) (cs : List RunCall) :
    List (Int × Int × Int) :=
  ((runTrace w ms cs).filter (fun t => t.2)).map (fun t => t.1.triple)

/-- The number of calls whose VM creation succeeds. -/
def successCount (cs : List RunCall) : Nat :=
  (cs.filter (fun c => c.createVM.isNone)).length

/-! Example inputs -/

/-- An example of subprocess behaviour: the launch of the first
invocation prints the payload `A` between two sentinels, every later launch
prints what `later` says. -/
def envFirstThen (later : Bytes) : Env := fun n _ _ _ =>
  if n = 0 then ProcResult.exited (marker ++ ascii "A" ++ marker) else ProcResult.exited later

/-- A session made by `New` on which one algorithm and one dataset have been
submitted. -/
def stagedWorld : World Unit :=
  { svc := (((New Unit).Algo (ascii "print(1)")).2.Data (ascii "1,2,3")).2, runCalls := [] }

/-- An example of subprocess behaviour that reveals what it was launched
with: every launch exits with status 0 and prints its script followed by its
data between two sentinels. -/
def echoEnv : Env := fun _ algo data _ =>
  ProcResult.exited (marker ++ algo ++ data ++ marker)

/-- A staging sequence with two algorithms and two datasets. -/
def exampleCalls : List (Call Unit) :=
  [Call.Algo (ascii "A1"), Call.Data (ascii "D1"), Call.Algo (ascii "A2"), Call.Data (ascii "D2")]

/-- A manager service with the port triple 2222, 9301, 7020. -/
def examplePorts : managerService :=
  { qemuCfg := { HostFwd1 := 2222, NetDevConfig := { HostFwd2 := 9301, HostFwd3 := 7020 } } }

/-- Four calls of `Run`: a success, a failed VM creation, a failed agent call
after a successful creation, and a success. -/
def exampleRuns : List RunCall :=
  [ { computation := [], createVM := none, agent := Except.ok "ack" },
    { computation := [], createVM := some "create failed", agent := Except.ok "ack" },
    { computation := [], createVM := none, agent := Except.error "unreachable" },
    { computation := [], createVM := none, agent := Except.ok "ack" } ]

/-! Occurrences -/

theorem occursAt_zero (sep s : Bytes) : occursAt sep s 0 ↔ sep <+: s := by
  simp [occursAt]

theorem occursAt_succ (sep : Bytes) (x : Byte) (xs : Bytes) (k : Nat) :
    occursAt sep (x :: xs) (k + 1) ↔ occursAt sep xs k := by
  simp [occursAt]

theorem occursAt_nil (sep : Bytes) (k : Nat) : occursAt sep [] k ↔ sep = [] ∧ k = 0 := by
  simp [occursAt]; tauto

theorem occurs_iff (sep s : Bytes) : occurs sep s ↔ ∃ k, occursAt sep s k := by
  constructor
  · rintro ⟨pre, post, h⟩
    refine ⟨pre.length, ?_, ?_⟩
    · rw [← h]; simp
    · rw [← h]; simp [List.append_assoc]
  · rintro ⟨k, hk, post, h⟩
    refine ⟨s.take k, post, ?_⟩
    rw [List.append_assoc, h, List.take_append_drop]

theorem occursAt_append_left (sep pre s : Bytes) (k : Nat) :
    occursAt sep (pre ++ s) (pre.length + k) ↔ occursAt sep s k := by
  simp [occursAt]

theorem firstOcc_unique (sep s : Bytes) (i j : Nat)
    (hi : firstOcc sep s i) (hj : firstOcc sep s j) : i = j := by
  rcases Nat.lt_trichotomy i j with h | h | h
  · exact absurd hi.1 (hj.2 i h)
  · exact h
  · exact absurd hj.1 (hi.2 j h)

theorem lastOcc_unique (sep s : Bytes) (i j : Nat)
    (hi : lastOcc sep s i) (hj : lastOcc sep s j) : i = j := by
  rcases Nat.lt_trichotomy i j with h | h | h
  · exact absurd hj.1 (hi.2 j hj.1.1 h)
  · exact h
  · exact absurd hi.1 (hj.2 i hi.1.1 h)

theorem firstOcc_le_lastOcc (sep s : Bytes) (i j : Nat)
    (hi : firstOcc sep s i) (hj : lastOcc sep s j) : i ≤ j := by
  by_contra h
  exact hi.2 j (by omega) hj.1

/-! The searches return the first and the last occurrence -/

theorem indexFrom_spec (sep : Bytes) : ∀ (s : Bytes) (k : Nat),
    (bytes.indexFrom sep s k = -1 ∧ ∀ j, ¬ occursAt sep s j) ∨
    ∃ i, bytes.indexFrom sep s k = ((k + i : Nat) : Int) ∧ firstOcc sep s i := by
  intro s
  induction s with
  | nil =>
    intro k
    by_cases h : sep.isPrefixOf ([] : Bytes) = true
    · right
      refine ⟨0, by simp [bytes.indexFrom, h], ?_, fun k hk => absurd hk (Nat.not_lt_zero k)⟩
      exact (occursAt_zero sep []).2 (List.isPrefixOf_iff_prefix.1 h)
    · left
      refine ⟨by simp [bytes.indexFrom, h], fun j hj => h ?_⟩
      have := (occursAt_nil sep j).1 hj
      simp [this.1]
  | cons x xs ih =>
    intro k
    by_cases h : sep.isPrefixOf (x :: xs) = true
    · right
      refine ⟨0, by simp [bytes.indexFrom, h], ?_, fun k hk => absurd hk (Nat.not_lt_zero k)⟩
      exact (occursAt_zero sep _).2 (List.isPrefixOf_iff_prefix.1 h)
    · have h0 : ¬ occursAt sep (x :: xs) 0 := fun h0 =>
        h (List.isPrefixOf_iff_prefix.2 ((occursAt_zero sep _).1 h0))
      rcases ih (k + 1) with ⟨e, hn⟩ | ⟨i, e, hf⟩
      · left
        refine ⟨by simp [bytes.indexFrom, h, e], fun j hj => ?_⟩
        cases j with
        | zero => exact h0 hj
        | succ j => exact hn j ((occursAt_succ sep x xs j).1 hj)
      · right
        refine ⟨i + 1, ?_, (occursAt_succ sep x xs i).2 hf.1, fun j hj hocc => ?_⟩
        · simp only [bytes.indexFrom, h, e]
          simp
          omega
        · cases j with
          | zero => exact h0 hocc
          | succ j => exact hf.2 j (by omega) ((occursAt_succ sep x xs j).1 hocc)

theorem lastIndexFrom_spec (sep : Bytes) : ∀ (s : Bytes) (k : Nat) (acc : Int),
    (bytes.lastIndexFrom sep s k acc = acc ∧ ∀ j, ¬ occursAt sep s j) ∨
    ∃ j, bytes.lastIndexFrom sep s k acc = ((k + j : Nat) : Int) ∧ lastOcc sep s j := by
  intro s
  induction s with
  | nil =>
    intro k acc
    by_cases h : sep.isPrefixOf ([] : Bytes) = true
    · right
      refine ⟨0, by simp [bytes.lastIndexFrom, h], ?_, fun k hk hlt => ?_⟩
      · exact (occursAt_zero sep []).2 (List.isPrefixOf_iff_prefix.1 h)
      · simp at hk; omega
    · left
      refine ⟨by simp [bytes.lastIndexFrom, h], fun j hj => h ?_⟩
      have := (occursAt_nil sep j).1 hj
      simp [this.1]
  | cons x xs ih =>
    intro k acc
    rcases ih (k + 1) (if sep.isPrefixOf (x :: xs) then (k : Int) else acc) with
      ⟨e, hn⟩ | ⟨j, e, hl⟩
    · by_cases h : sep.isPrefixOf (x :: xs) = true
      · right
        refine ⟨0, ?_, (occursAt_zero sep _).2 (List.isPrefixOf_iff_prefix.1 h), ?_⟩
        · simp only [h, if_true] at e
          simp [bytes.lastIndexFrom, h, e]
        · intro m _ hm hocc
          cases m with
          | zero => omega
          | succ m => exact hn m ((occursAt_succ sep x xs m).1 hocc)
      · left
        refine ⟨?_, fun j hj => ?_⟩
        · simp only [h] at e
          simp [bytes.lastIndexFrom, h]
          simpa using e
        · cases j with
          | zero =>
            exact h (List.isPrefixOf_iff_prefix.2 ((occursAt_zero sep _).1 hj))
          | succ j => exact hn j ((occursAt_succ sep x xs j).1 hj)
    · right
      refine ⟨j + 1, ?_, (occursAt_succ sep x xs j).2 hl.1, fun m hm hlt hocc => ?_⟩
      · simp only [bytes.lastIndexFrom, e]
        congr 1
        omega
      · cases m with
        | zero => omega
        | succ m =>
          exact hl.2 m (by simpa using hm) (by omega) ((occursAt_succ sep x xs m).1 hocc)

theorem Index_of_firstOcc (sep s : Bytes) (i : Nat) (h : firstOcc sep s i) :
    bytes.Index s sep = (i : Int) := by
  rcases indexFrom_spec sep s 0 with ⟨_, hn⟩ | ⟨i', e, hf⟩
  · exact absurd h.1 (hn i)
  · rw [bytes.Index, e, firstOcc_unique sep s i i' h hf]; simp

theorem Index_of_not_occurs (sep s : Bytes) (h : ¬ occurs sep s) :
    bytes.Index s sep = -1 := by
  rcases indexFrom_spec sep s 0 with ⟨e, _⟩ | ⟨i', _, hf⟩
  · exact e
  · exact absurd ((occurs_iff sep s).2 ⟨i', hf.1⟩) h

theorem LastIndex_of_lastOcc (sep s : Bytes) (j : Nat) (h : lastOcc sep s j) :
    bytes.LastIndex s sep = (j : Int) := by
  rcases lastIndexFrom_spec sep s 0 (-1) with ⟨_, hn⟩ | ⟨j', e, hl⟩
  · exact absurd h.1 (hn j)
  · rw [bytes.LastIndex, e, lastOcc_unique sep s j j' h hl]; simp

theorem LastIndex_of_not_occurs (sep s : Bytes) (h : ¬ occurs sep s) :
    bytes.LastIndex s sep = -1 := by
  rcases lastIndexFrom_spec sep s 0 (-1) with ⟨e, _⟩ | ⟨j', _, hl⟩
  · exact e
  · exact absurd ((occurs_iff sep s).2 ⟨j', hl.1⟩) h

theorem exists_firstOcc (sep s : Bytes) (h : occurs sep s) : ∃ i, firstOcc sep s i := by
  rcases indexFrom_spec sep s 0 with ⟨_, hn⟩ | ⟨i, _, hf⟩
  · obtain ⟨k, hk⟩ := (occurs_iff sep s).1 h
    exact absurd hk (hn k)
  · exact ⟨i, hf⟩

theorem exists_lastOcc (sep s : Bytes) (h : occurs sep s) : ∃ j, lastOcc sep s j := by
  rcases lastIndexFrom_spec sep s 0 (-1) with ⟨_, hn⟩ | ⟨j, _, hl⟩
  · obtain ⟨k, hk⟩ := (occurs_iff sep s).1 h
    exact absurd hk (hn k)
  · exact ⟨j, hl⟩

/-- The index returned by `bytes.LastIndex` never exceeds the length of the
input, so the upper bound of the slice in `extractResult` is within the length
(and hence within the capacity) of `output`. -/
theorem LastIndex_le_length (sep s : Bytes) : bytes.LastIndex s sep ≤ (s.length : Int) := by
  rcases lastIndexFrom_spec sep s 0 (-1) with ⟨e, _⟩ | ⟨j, e, hl⟩
  · rw [bytes.LastIndex, e]; omega
  · rw [bytes.LastIndex, e]
    have := hl.1.1
    omega

theorem sliceExpr_nat (s : Bytes) (lo hi : Nat) :
    sliceExpr s (lo : Int) (hi : Int) =
      if lo ≤ hi ∧ hi ≤ s.length then some ((s.drop lo).take (hi - lo)) else none := by
  unfold sliceExpr
  by_cases h : lo ≤ hi ∧ hi ≤ s.length
  · rw [if_pos h, if_pos ⟨by omega, by omega, by omega⟩]
    simp
  · rw [if_neg h, if_neg]
    intro h2
    exact h ⟨by omega, by omega⟩

/-! What `extractResult` returns -/

theorem extractResult_of_not_occurs (output S : Bytes) (h : ¬ occurs S output) :
    extractResult output S S = Outcome.ret (none, some "model marker not found in output") := by
  simp [extractResult, Index_of_not_occurs S output h]

theorem extractResult_of_occ (output S : Bytes) (i j : Nat)
    (hi : firstOcc S output i) (hj : lastOcc S output j) :
    extractResult output S S =
      if i < j then
        if i + S.length ≤ j then
          Outcome.ret (some ((output.drop (i + S.length)).take (j - (i + S.length))), none)
        else Outcome.panic
      else Outcome.ret (none, some "model marker not found in output") := by
  have hjl : j ≤ output.length := hj.1.1
  unfold extractResult
  rw [Index_of_firstOcc S output i hi, LastIndex_of_lastOcc S output j hj]
  have hc : ((i : Int) + (S.length : Int)) = ((i + S.length : Nat) : Int) := by push_cast; rfl
  simp only [hc, sliceExpr_nat]
  by_cases hlt : i < j
  · have h1 : ((i : Int) ≠ -1 ∧ (j : Int) ≠ -1 ∧ (i : Int) < (j : Int)) :=
      ⟨by omega, by omega, by omega⟩
    rw [if_pos h1, if_pos hlt]
    by_cases hov : i + S.length ≤ j
    · rw [if_pos hov, if_pos ⟨hov, hjl⟩]
    · rw [if_neg hov, if_neg (fun h => hov h.1)]
  · rw [if_neg hlt, if_neg]
    intro h
    omega

theorem occursAt_of_append (S A B : Bytes) (k : Nat)
    (h : occursAt S (A ++ B) k) (hk : k + S.length ≤ A.length) : occursAt S A k := by
  refine ⟨by omega, ?_⟩
  have h2 : S <+: A.drop k ++ B := by
    have := h.2
    rwa [List.drop_append_of_le_length (by omega)] at this
  exact List.prefix_of_prefix_length_le h2 (List.prefix_append _ _) (by simp; omega)

theorem firstOcc_bracket (S pre rest : Bytes) (hS : S ≠ [])
    (hpre : ¬ occurs S (pre ++ S.dropLast)) : firstOcc S (pre ++ (S ++ rest)) pre.length := by
  refine ⟨?_, fun k hk hocc => hpre ?_⟩
  · have := (occursAt_append_left S pre (S ++ rest) 0).2
      ((occursAt_zero S _).2 (List.prefix_append _ _))
    simpa using this
  · have hlen : 0 < S.length := List.length_pos.2 hS
    have e : pre ++ (S ++ rest) = (pre ++ S.dropLast) ++ (S.getLast hS :: rest) := by
      conv_lhs => rw [← List.dropLast_append_getLast hS]
      simp [List.append_assoc]
    rw [e] at hocc
    have := occursAt_of_append S _ _ k hocc (by simp; omega)
    exact (occurs_iff S _).2 ⟨k, this⟩

theorem lastOcc_bracket (S front trailing : Bytes) (hS : S ≠ [])
    (htr : ¬ occurs S (S.tail ++ trailing)) :
    lastOcc S (front ++ (S ++ trailing)) front.length := by
  refine ⟨?_, fun k _ hk hocc => htr ?_⟩
  · have := (occursAt_append_left S front (S ++ trailing) 0).2
      ((occursAt_zero S _).2 (List.prefix_append _ _))
    simpa using this
  · obtain ⟨x, xs, rfl⟩ := List.exists_cons_of_ne_nil hS
    obtain ⟨m, rfl⟩ : ∃ m, k = (front ++ [x]).length + m := ⟨k - (front.length + 1), by simp; omega⟩
    have e : front ++ (x :: xs ++ trailing) = (front ++ [x]) ++ (xs ++ trailing) := by simp
    rw [e, occursAt_append_left] at hocc
    exact (occurs_iff _ _).2 ⟨m, hocc⟩

/-- The bytes of `marker` are those of the string constant of the source. -/
theorem marker_eq_ascii : marker = ascii "===MODEL_MARKER===" := by
  decide

/-! Claims on `extractResult` -/

/-- Supporting result for C1: when the first occurrence of the sentinel ends at
or before the start of the last one, `extractResult` returns exactly the bytes
between the end of the first and the start of the last occurrence. -/
theorem extractResult_between (output S : Bytes) (i j : Nat)
    (hi : firstOcc S output i) (hj : lastOcc S output j)
    (hlt : i < j) (hsep : i + S.length ≤ j) :
    extractResult output S S =
      Outcome.ret (some ((output.drop (i + S.length)).take (j - (i + S.length))), none) := by
  rw [extractResult_of_occ output S i j hi hj, if_pos hlt, if_pos hsep]

/-- C1: on the output `===MODEL_MARKER===MODEL_MARKER===` the sentinel first
occurs at index 0 and last occurs at index 15, so the first index is the
smaller one, and `extractResult` panics on the slice `output[18:15]` rather
than returning bytes. -/
theorem extractResult_overlap_panics :
    firstOcc marker (ascii "===MODEL_MARKER===MODEL_MARKER===") 0 ∧
    lastOcc marker (ascii "===MODEL_MARKER===MODEL_MARKER===") 15 ∧
    extractResult (ascii "===MODEL_MARKER===MODEL_MARKER===") marker marker = Outcome.panic := by
  decide

/-- The example of the spec for C1: the payload `ABC123` is returned from
between two sentinels surrounded by other text. -/
theorem extractResult_example :
    extractResult (ascii "noise===MODEL_MARKER===ABC123===MODEL_MARKER===trailing") marker marker
      = Outcome.ret (some (ascii "ABC123"), none) := by
  decide

/-- C2: `extractResult output S S` returns an error exactly when `S` does not
occur in `output` or its last occurrence starts at or before its first one;
an error comes with a nil payload; and an output with a single occurrence of
`S` yields the error. -/
theorem extractResult_error_iff (output S : Bytes) :
    ((∃ p e, extractResult output S S = Outcome.ret (p, some e)) ↔
      (¬ occurs S output ∨ ∀ i j, firstOcc S output i → lastOcc S output j → j ≤ i)) ∧
    (∀ p e, extractResult output S S = Outcome.ret (p, some e) → p = none) ∧
    (∀ i, firstOcc S output i → lastOcc S output i →
      extractResult output S S = Outcome.ret (none, some "model marker not found in output")) := by
  by_cases hocc : occurs S output
  · obtain ⟨i, hi⟩ := exists_firstOcc S output hocc
    obtain ⟨j, hj⟩ := exists_lastOcc S output hocc
    have hle := firstOcc_le_lastOcc S output i j hi hj
    have hval := extractResult_of_occ output S i j hi hj
    refine ⟨⟨?_, ?_⟩, ?_, ?_⟩
    · rintro ⟨p, e, he⟩
      right
      intro i' j' hi' hj'
      rw [← firstOcc_unique S output i i' hi hi', ← lastOcc_unique S output j j' hj hj']
      by_contra hcon
      rw [hval, if_pos (by omega)] at he
      split at he <;> simp at he
    · rintro (h | h)
      · exact absurd hocc h
      · have := h i j hi hj
        rw [hval, if_neg (by omega)]
        exact ⟨none, _, rfl⟩
    · intro p e he
      rw [hval] at he
      split at he
      · split at he <;> simp at he
      · simp at he
        exact he.1.symm
    · intro k hk hk'
      rw [extractResult_of_occ output S k k hk hk', if_neg (by omega)]
  · have hval := extractResult_of_not_occurs output S hocc
    refine ⟨⟨fun _ => Or.inl hocc, fun _ => ⟨none, _, hval⟩⟩, ?_, ?_⟩
    · intro p e he
      rw [hval] at he
      simp at he
      exact he.1.symm
    · intro k hk _
      exact absurd ((occurs_iff S output).2 ⟨k, hk.1⟩) hocc

/-- C3 fails as stated: no one of the prefix `===MODEL_MARKER`, the payload
`ABC123` and the empty trailing text contains the sentinel, yet bracketing
returns `MODEL_MARKER===ABC123` and not the payload, because an occurrence of
the sentinel starts inside the prefix. -/
theorem extractResult_bracket_counterexample :
    ¬ occurs marker (ascii "===MODEL_MARKER") ∧
    ¬ occurs marker (ascii "ABC123") ∧
    ¬ occurs marker [] ∧
    extractResult (ascii "===MODEL_MARKER" ++ marker ++ ascii "ABC123" ++ marker ++ [])
        marker marker = Outcome.ret (some (ascii "MODEL_MARKER===ABC123"), none) ∧
    extractResult (ascii "===MODEL_MARKER" ++ marker ++ ascii "ABC123" ++ marker ++ [])
        marker marker ≠ Outcome.ret (some (ascii "ABC123"), none) := by
  decide

/-- C3, amended: when the sentinel occurs neither in the prefix followed by
the sentinel less its last byte, nor in the payload, nor in the sentinel less
its first byte followed by the trailing text, `extractResult` on
`prefix ++ S ++ payload ++ S ++ trailing` returns exactly the payload. -/
theorem extractResult_bracket (pre payload trailing : Bytes)
    (hpre : ¬ occurs marker (pre ++ marker.dropLast))
    (_hpay : ¬ occurs marker payload)
    (htr : ¬ occurs marker (marker.tail ++ trailing)) :
    extractResult (pre ++ marker ++ payload ++ marker ++ trailing) marker marker
      = Outcome.ret (some payload, none) := by
  have hS : marker ≠ [] := by decide
  have e1 : pre ++ marker ++ payload ++ marker ++ trailing
      = pre ++ (marker ++ (payload ++ marker ++ trailing)) := by simp
  have e2 : pre ++ marker ++ payload ++ marker ++ trailing
      = (pre ++ marker ++ payload) ++ (marker ++ trailing) := by simp
  have hi := firstOcc_bracket marker pre (payload ++ marker ++ trailing) hS hpre
  have hj := lastOcc_bracket marker (pre ++ marker ++ payload) trailing hS htr
  rw [← e1] at hi
  rw [← e2] at hj
  have hlen : marker.length = 18 := by decide
  rw [extractResult_between _ marker _ _ hi hj (by simp; omega) (by simp)]
  have e3 : pre ++ marker ++ payload ++ marker ++ trailing
      = (pre ++ marker) ++ (payload ++ (marker ++ trailing)) := by simp
  have e4 : (pre ++ marker ++ payload).length - (pre.length + marker.length) = payload.length := by
    simp only [List.length_append]
    omega
  have e5 : pre.length + marker.length = (pre ++ marker).length := by simp
  rw [e4, e5, e3, List.drop_left, List.take_left]

/-- Witness for C3, amended: prefix `noise`, payload `ABC123`, trailing
`trailing`. -/
theorem extractResult_bracket_witness :
    ¬ occurs marker (ascii "noise" ++ marker.dropLast) ∧
    ¬ occurs marker (ascii "ABC123") ∧
    ¬ occurs marker (marker.tail ++ ascii "trailing") ∧
    extractResult (ascii "noise" ++ marker ++ ascii "ABC123" ++ marker ++ ascii "trailing")
      marker marker = Outcome.ret (some (ascii "ABC123"), none) :=
  ⟨by decide, by decide, by decide,
    extractResult_bracket (ascii "noise") (ascii "ABC123") (ascii "trailing")
      (by decide) (by decide) (by decide)⟩

/-! The protocol state machine -/

/-- C4: the state after an event is processed is the next state of the table
when the pair of state and event is one of its six rows, and the state itself
for every other pair; each row of the table of the test is met, the pair
idle/dataReceived leaves idle, and every event leaves complete. -/
theorem processEvent_eq_table :
    (∀ (s : state) (e : event), processEvent s e =
      match testCases.find? (fun t => decide (t.1 = s ∧ t.2.1 = e)) with
      | some t => t.2.2
      | none => s) ∧
    testCases.all (fun t => decide (processEvent t.1 t.2.1 = t.2.2)) = true ∧
    processEvent state.idle event.dataReceived = state.idle ∧
    (∀ e : event, processEvent state.complete e = state.complete) := by
  refine ⟨?_, by decide, by decide, ?_⟩
  · intro s e
    cases s <;> cases e <;> rfl
  · intro e
    cases e <;> rfl

/-! The agent session -/

theorem calls_algorithms_head {C : Type} (marshal : C → Except String String)
    (cs : List (Call C)) : ∀ (as : agentService C),
    (as.calls marshal cs).algorithms.head? =
      match as.algorithms.head? with
      | some x => some x
      | none => firstAlgo cs := by
  induction cs with
  | nil => intro as; cases h : as.algorithms.head? <;> simp [agentService.calls, firstAlgo, h]
  | cons c cs ih =>
    intro as
    have hstep : (as.calls marshal (c :: cs)) = ((as.call marshal c).calls marshal cs) := rfl
    rw [hstep, ih]
    cases c with
    | Run cmp =>
      have : (as.call marshal (Call.Run cmp)).algorithms = as.algorithms := by
        simp only [agentService.call, agentService.Run]
        cases marshal cmp <;> rfl
      rw [this]
      cases as.algorithms.head? <;> rfl
    | Algo b =>
      have : (as.call marshal (Call.Algo b)).algorithms = as.algorithms ++ [b] := rfl
      rw [this]
      cases as.algorithms <;> simp [firstAlgo]
    | Data b =>
      have : (as.call marshal (Call.Data b)).algorithms = as.algorithms := rfl
      rw [this]
      cases as.algorithms.head? <;> rfl

theorem calls_datasets_head {C : Type} (marshal : C → Except String String)
    (cs : List (Call C)) : ∀ (as : agentService C),
    (as.calls marshal cs).datasets.head? =
      match as.datasets.head? with
      | some x => some x
      | none => firstData cs := by
  induction cs with
  | nil => intro as; cases h : as.datasets.head? <;> simp [agentService.calls, firstData, h]
  | cons c cs ih =>
    intro as
    have hstep : (as.calls marshal (c :: cs)) = ((as.call marshal c).calls marshal cs) := rfl
    rw [hstep, ih]
    cases c with
    | Run cmp =>
      have : (as.call marshal (Call.Run cmp)).datasets = as.datasets := by
        simp only [agentService.call, agentService.Run]
        cases marshal cmp <;> rfl
      rw [this]
      cases as.datasets.head? <;> rfl
    | Algo b =>
      have : (as.call marshal (Call.Algo b)).datasets = as.datasets := rfl
      rw [this]
      cases as.datasets.head? <;> rfl
    | Data b =>
      have : (as.call marshal (Call.Data b)).datasets = as.datasets ++ [b] := rfl
      rw [this]
      cases as.datasets <;> simp [firstData]

/-- What `Result` does on a session holding at least one algorithm and one
dataset: it invokes `run` once, on the first of each, and its return value
follows from that invocation. -/
theorem Result_of_cons {C : Type} (env : Env) (w : World C) (a d : Bytes)
    (as ds : List Bytes) (ha : w.svc.algorithms = a :: as) (hd : w.svc.datasets = d :: ds) :
    (agentService.Result env w).2.runCalls = w.runCalls ++ [(a, d, resultFilePath)] ∧
    (agentService.Result env w).1 =
      match run (env w.runCalls.length) a d resultFilePath with
      | Outcome.panic => Outcome.panic
      | Outcome.ret (_, some err) =>
          Outcome.ret (none, some ("error performing computation: " ++ err))
      | Outcome.ret (result, none) => Outcome.ret (result, none) := by
  unfold agentService.Result
  rw [ha, hd]
  simp only
  split <;> simp_all

theorem head?_some_cons (l : List Bytes) (a : Bytes) (h : l.head? = some a) :
    ∃ t, l = a :: t := by
  cases l with
  | nil => simp at h
  | cons x xs => simp at h; exact ⟨xs, by rw [h]⟩

/-- C6: on a session made by `New` and staged by any sequence of calls in
which `a` is the payload of the first `Algo` call and `d` the payload of the
first `Data` call, `Result` invokes the executor exactly once, with `a`, `d`
and the result path, and what it returns is what `run` yields on `a` and `d`,
whatever the later calls carry. -/
theorem Result_uses_first_submitted {C : Type} [Inhabited C]
    (marshal : C → Except String String) (env : Env) (cs : List (Call C))
    (log : List Invocation) (a d : Bytes)
    (ha : firstAlgo cs = some a) (hd : firstData cs = some d) :
    ((New C).calls marshal cs).algorithms.head? = some a ∧
    ((New C).calls marshal cs).datasets.head? = some d ∧
    (agentService.Result env { svc := (New C).calls marshal cs, runCalls := log }).2.runCalls
      = log ++ [(a, d, resultFilePath)] ∧
    (agentService.Result env { svc := (New C).calls marshal cs, runCalls := log }).1 =
      (match run (env log.length) a d resultFilePath with
      | Outcome.panic => Outcome.panic
      | Outcome.ret (_, some err) =>
          Outcome.ret (none, some ("error performing computation: " ++ err))
      | Outcome.ret (result, none) => Outcome.ret (result, none)) := by
  have h1 := calls_algorithms_head marshal cs (New C)
  have h2 := calls_datasets_head marshal cs (New C)
  have hn1 : (New C).algorithms.head? = none := rfl
  have hn2 : (New C).datasets.head? = none := rfl
  rw [hn1] at h1
  rw [hn2] at h2
  simp only at h1 h2
  rw [ha] at h1
  rw [hd] at h2
  obtain ⟨as, has⟩ := head?_some_cons _ a h1
  obtain ⟨ds, hds⟩ := head?_some_cons _ d h2
  have hr := Result_of_cons env { svc := (New C).calls marshal cs, runCalls := log } a d as ds
    has hds
  exact ⟨h1, h2, hr.1, hr.2⟩

/-- Witness for C6: algorithm `A1`, dataset `D1`, then a second algorithm `A2`
and a second dataset `D2`, with a subprocess that prints what it was launched
with; the executor is invoked with `A1` and `D1`, and `Result` returns
`A1D1`. -/
theorem Result_uses_first_submitted_witness :
    firstAlgo exampleCalls = some (ascii "A1") ∧
    firstData exampleCalls = some (ascii "D1") ∧
    (agentService.Result echoEnv
      { svc := (New Unit).calls (fun _ => Except.ok "") exampleCalls,
        runCalls := [] }).2.runCalls = [] ++ [(ascii "A1", ascii "D1", resultFilePath)] ∧
    (agentService.Result echoEnv
      { svc := (New Unit).calls (fun _ => Except.ok "") exampleCalls,
        runCalls := [] }).1 = Outcome.ret (some (ascii "A1D1"), none) :=
  ⟨rfl, rfl,
    (Result_uses_first_submitted (fun _ => Except.ok "") echoEnv
      exampleCalls [] (ascii "A1") (ascii "D1") rfl rfl).2.2.1,
    (Result_uses_first_submitted (fun _ => Except.ok "") echoEnv
      exampleCalls [] (ascii "A1") (ascii "D1") rfl rfl).2.2.2.trans (by decide)⟩

/-- Supporting result for C7: whenever the subprocess exits with status 0 and
`extractResult` reports an error on its output, `run` returns a nil payload
and a nil error. -/
theorem run_of_extraction_error (proc : Proc) (algo data output : Bytes) (path err : String)
    (hp : proc algo data path = ProcResult.exited output)
    (he : extractResult output marker marker = Outcome.ret (none, some err)) :
    run proc algo data path = Outcome.ret (none, none) := by
  simp only [run, hp, he]

/-- C7: when the subprocess exits with status 0 and its output holds the
sentinel only once, `extractResult` reports the error, yet `run` returns a nil
payload with a nil error, and so does `Result`: a success with no artifact. -/
theorem run_swallows_extraction_error (algo data : Bytes) :
    extractResult (ascii "===MODEL_MARKER===ABC123") marker marker
      = Outcome.ret (none, some "model marker not found in output") ∧
    run (fun _ _ _ => ProcResult.exited (ascii "===MODEL_MARKER===ABC123")) algo data
      resultFilePath = Outcome.ret (none, none) ∧
    (agentService.Result (fun _ _ _ _ => ProcResult.exited (ascii "===MODEL_MARKER===ABC123"))
      { svc := { computation := (), algorithms := [algo], datasets := [data], result := none },
        runCalls := [] }).1 = Outcome.ret (none, none) := by
  have h : extractResult (ascii "===MODEL_MARKER===ABC123") marker marker
      = Outcome.ret (none, some "model marker not found in output") := by decide
  refine ⟨h, ?_, ?_⟩
  · simp only [run, h]
  · simp only [agentService.Result, run, h]

/-- C8 fails as stated: after `Result` has succeeded with artifact `A`, a
second call with no `Run` in between invokes the executor again and returns
`B`, the output of the second subprocess. -/
theorem Result_not_cached :
    (agentService.Result (envFirstThen (marker ++ ascii "B" ++ marker)) stagedWorld).1
      = Outcome.ret (some (ascii "A"), none) ∧
    (agentService.Result (envFirstThen (marker ++ ascii "B" ++ marker)) stagedWorld).2.runCalls.length
      = 1 ∧
    (agentService.Result (envFirstThen (marker ++ ascii "B" ++ marker))
      (agentService.Result (envFirstThen (marker ++ ascii "B" ++ marker)) stagedWorld).2).1
      = Outcome.ret (some (ascii "B"), none) ∧
    (agentService.Result (envFirstThen (marker ++ ascii "B" ++ marker))
      (agentService.Result (envFirstThen (marker ++ ascii "B" ++ marker))
        stagedWorld).2).2.runCalls.length = 2 := by
  decide

/-- C8, amended: every call to `Result` on a session holding at least one
algorithm and one dataset invokes the executor once more, with the first
algorithm and the first dataset, and returns what that invocation yields (its
payload, or its error wrapped); the result stored by an earlier call is not
consulted. -/
theorem Result_reexecutes {C : Type} (env : Env) (w : World C) (a d : Bytes)
    (as ds : List Bytes) (cached : Option Bytes)
    (ha : w.svc.algorithms = a :: as) (hd : w.svc.datasets = d :: ds) :
    (agentService.Result env w).2.runCalls.length = w.runCalls.length + 1 ∧
    (agentService.Result env w).2.runCalls = w.runCalls ++ [(a, d, resultFilePath)] ∧
    ((agentService.Result env w).1 =
      match run (env w.runCalls.length) a d resultFilePath with
      | Outcome.panic => Outcome.panic
      | Outcome.ret (_, some err) =>
          Outcome.ret (none, some ("error performing computation: " ++ err))
      | Outcome.ret (result, none) => Outcome.ret (result, none)) ∧
    (agentService.Result env { w with svc := { w.svc with result := cached } }).1
      = (agentService.Result env w).1 := by
  have h := Result_of_cons env w a d as ds ha hd
  have h2 := Result_of_cons env { w with svc := { w.svc with result := cached } } a d as ds ha hd
  refine ⟨by rw [h.1]; simp, h.1, h.2, ?_⟩
  rw [h.2, h2.2]

/-- Witness for C8, amended: the staged session, whose second call to `Result`
is served by a second invocation of the executor. -/
theorem Result_reexecutes_witness :
    stagedWorld.svc.algorithms = ascii "print(1)" :: [] ∧
    stagedWorld.svc.datasets = ascii "1,2,3" :: [] ∧
    (agentService.Result (envFirstThen []) stagedWorld).2.runCalls.length
      = stagedWorld.runCalls.length + 1 :=
  ⟨rfl, rfl,
    (Result_reexecutes (envFirstThen []) stagedWorld (ascii "print(1)") (ascii "1,2,3") [] []
      none rfl rfl).1⟩

/-- Supporting result for C9: when the subprocess cannot be started or exits
with an error, `Result` returns an error and leaves every field of the
service, the stored result included, as it was. -/
theorem Result_execution_failure_keeps_cache {C : Type} (env : Env) (w : World C)
    (a d : Bytes) (as ds : List Bytes)
    (ha : w.svc.algorithms = a :: as) (hd : w.svc.datasets = d :: ds)
    (hfail : ∀ out, env w.runCalls.length a d resultFilePath ≠ ProcResult.exited out) :
    (agentService.Result env w).2.svc = w.svc ∧
    ∃ e, (agentService.Result env w).1 = Outcome.ret (none, some e) := by
  unfold agentService.Result
  rw [ha, hd]
  simp only [run]
  cases h : env w.runCalls.length a d resultFilePath with
  | exited out => exact absurd h (hfail out)
  | stdoutPipeErr m => exact ⟨rfl, _, rfl⟩
  | stderrPipeErr m => exact ⟨rfl, _, rfl⟩
  | startErr m => exact ⟨rfl, _, rfl⟩
  | waitErr m => exact ⟨rfl, _, rfl⟩

/-- C9: on the staged session the first call to `Result` stores the artifact
`A`; the second subprocess exits with status 0 and prints no sentinel, the
second call returns a nil payload with a nil error, and the stored result is
nil afterwards: the artifact stored before is lost. -/
theorem Result_extraction_failure_clears_cache :
    (agentService.Result (envFirstThen (ascii "no artifact")) stagedWorld).2.svc.result
      = some (ascii "A") ∧
    extractResult (ascii "no artifact") marker marker
      = Outcome.ret (none, some "model marker not found in output") ∧
    (agentService.Result (envFirstThen (ascii "no artifact"))
      (agentService.Result (envFirstThen (ascii "no artifact")) stagedWorld).2).1
      = Outcome.ret (none, none) ∧
    (agentService.Result (envFirstThen (ascii "no artifact"))
      (agentService.Result (envFirstThen (ascii "no artifact")) stagedWorld).2).2.svc.result
      = none := by
  decide

/-- C10: `Result` panics on a session made by `New` on which nothing has been
submitted (index 0 of an empty slice), on one holding an algorithm but no
dataset, and on a staged session whose subprocess prints two overlapping
sentinels (slice bounds 18 and 15). -/
theorem Result_panics (env : Env) (algo data : Bytes) :
    (agentService.Result env { svc := New Unit, runCalls := [] }).1 = Outcome.panic ∧
    (agentService.Result env { svc := ((New Unit).Algo algo).2, runCalls := [] }).1
      = Outcome.panic ∧
    (agentService.Result
      (fun _ _ _ _ => ProcResult.exited (ascii "===MODEL_MARKER===MODEL_MARKER==="))
      { svc := (((New Unit).Algo algo).2.Data data).2, runCalls := [] }).1 = Outcome.panic := by
  have h : extractResult (ascii "===MODEL_MARKER===MODEL_MARKER===") marker marker
      = Outcome.panic := by decide
  refine ⟨rfl, rfl, ?_⟩
  simp only [agentService.Result, agentService.Algo, agentService.Data, New, List.nil_append,
    run, h]

/-! The manager: port triples -/

theorem two_pow_split (w : Nat) (hw : 0 < w) : (2 : Int) ^ w = 2 * 2 ^ (w - 1) := by
  obtain ⟨v, rfl⟩ : ∃ v, w = v + 1 := ⟨w - 1, by omega⟩
  simp [pow_succ, mul_comm]

theorem wrapInt_of_inRange (w : Nat) (hw : 0 < w) (x : Int) (h : inRange w x) :
    wrapInt w x = x := by
  have hM := two_pow_split w hw
  unfold inRange at h
  unfold wrapInt
  rw [Int.emod_eq_of_lt (by omega) (by omega)]
  omega

theorem inRange_wrapInt (w : Nat) (hw : 0 < w) (x : Int) : inRange w (wrapInt w x) := by
  have hM := two_pow_split w hw
  have hpos : (0 : Int) < 2 ^ w := by positivity
  have h1 := Int.emod_nonneg (x + 2 ^ (w - 1)) (ne_of_gt hpos)
  have h2 := Int.emod_lt_of_pos (x + 2 ^ (w - 1)) hpos
  unfold inRange wrapInt
  constructor <;> omega

theorem wrapInt_incr_add (w : Nat) (x k : Int) :
    wrapInt w (incr w x + k) = wrapInt w (x + 1 + k) := by
  unfold incr wrapInt
  have e : (x + 1 + 2 ^ (w - 1)) % 2 ^ w - 2 ^ (w - 1) + k + 2 ^ (w - 1)
      = (x + 1 + 2 ^ (w - 1)) % 2 ^ w + k := by ring
  rw [e, Int.emod_add_emod]
  congr 2
  ring

theorem wrapInt_add_ne (w : Nat) (x : Int) (a b : Nat) (hab : a < b) (hb : b < 2 ^ w) :
    wrapInt w (x + a) ≠ wrapInt w (x + b) := by
  intro h
  unfold wrapInt at h
  have h2 : (x + (a : Int) + 2 ^ (w - 1)) % 2 ^ w = (x + (b : Int) + 2 ^ (w - 1)) % 2 ^ w := by
    omega
  rw [Int.emod_eq_emod_iff_emod_sub_eq_zero] at h2
  have h3 : (x + (a : Int) + 2 ^ (w - 1)) - (x + (b : Int) + 2 ^ (w - 1)) = -((b - a : Nat) : Int) := by
    push_cast [Nat.cast_sub (le_of_lt hab)]
    ring
  rw [h3] at h2
  have h4 := Int.dvd_of_emod_eq_zero h2
  rw [Int.dvd_neg] at h4
  have h5 : ((2 ^ w : Nat) : Int) ∣ ((b - a : Nat) : Int) := by
    push_cast
    exact h4
  rw [Int.natCast_dvd_natCast] at h5
  have := Nat.le_of_dvd (by omega) h5
  omega

theorem Run_state_fail (w : Nat) (ms : managerService) (c : RunCall) (err : String)
    (h : c.createVM = some err) : (ms.Run w c).2 = ms := by
  simp [managerService.Run, h]

theorem Run_state_ok (w : Nat) (ms : managerService) (c : RunCall) (h : c.createVM = none) :
    (ms.Run w c).2 =
      { qemuCfg :=
          { HostFwd1 := incr w ms.qemuCfg.HostFwd1
            NetDevConfig :=
              { HostFwd2 := incr w ms.qemuCfg.NetDevConfig.HostFwd2
                HostFwd3 := incr w ms.qemuCfg.NetDevConfig.HostFwd3 } } } := by
  simp only [managerService.Run, h]
  cases c.agent <;> rfl

/-- The port triples handed out by the successful calls, in closed form: the
call after `k` successful creations receives each initial counter advanced `k`
times. -/
theorem successTriples_eq (w : Nat) (hw : 0 < w) (cs : List RunCall) :
    ∀ ms : managerService, ms.qemuCfg.wellFormed w →
    successTriples w ms cs =
      (List.range (successCount cs)).map (fun (k : Nat) =>
        (wrapInt w (ms.qemuCfg.HostFwd1 + (k : Int)),
         wrapInt w (ms.qemuCfg.NetDevConfig.HostFwd2 + (k : Int)),
         wrapInt w (ms.qemuCfg.NetDevConfig.HostFwd3 + (k : Int)))) := by
  induction cs with
  | nil => intro ms _; rfl
  | cons c cs ih =>
    intro ms hwf
    cases hc : c.createVM with
    | some err =>
      have hs : (ms.Run w c).2 = ms := Run_state_fail w ms c err hc
      have e1 : successTriples w ms (c :: cs) = successTriples w ms cs := by
        simp [successTriples, runTrace, hc, hs]
      have e2 : successCount (c :: cs) = successCount cs := by
        simp [successCount, hc]
      rw [e1, e2, ih ms hwf]
    | none =>
      have hs := Run_state_ok w ms c hc
      have e1 : successTriples w ms (c :: cs)
          = ms.qemuCfg.triple :: successTriples w (ms.Run w c).2 cs := by
        simp [successTriples, runTrace, hc]
      have e2 : successCount (c :: cs) = successCount cs + 1 := by
        simp [successCount, hc]
      have hwf1 : (ms.Run w c).2.qemuCfg.wellFormed w := by
        rw [hs]
        exact ⟨inRange_wrapInt w hw _, inRange_wrapInt w hw _, inRange_wrapInt w hw _⟩
      rw [e1, e2, ih _ hwf1, List.range_succ_eq_map, List.map_cons, List.map_map, hs]
      congr 1
      · simp only [Config.triple, Nat.cast_zero, add_zero]
        rw [wrapInt_of_inRange w hw _ hwf.1, wrapInt_of_inRange w hw _ hwf.2.1,
          wrapInt_of_inRange w hw _ hwf.2.2]
      · apply List.map_congr_left
        intro k _
        simp only [Function.comp, wrapInt_incr_add, Nat.succ_eq_add_one, Nat.cast_add,
          Nat.cast_one]
        have e : ∀ x : Int, x + 1 + (k : Int) = x + ((k : Int) + 1) := fun x => by ring
        simp only [e]

theorem successCount_replicate (n : Nat) (c : RunCall) (h : c.createVM = none) :
    successCount (List.replicate n c) = n := by
  simp [successCount, List.filter_replicate, h]

/-- C5 fails as stated for 64-bit counters: after `2^64` successful creations
the counters are back at their initial values, so in a sequence of `2^64 + 1`
calls that all succeed the first and the last call hand the same port triple to
`qemu.CreateVM`. -/
theorem Run_port_triples_repeat :
    (successTriples 64
      { qemuCfg := { HostFwd1 := 2222, NetDevConfig := { HostFwd2 := 9301, HostFwd3 := 7020 } } }
      (List.replicate (2 ^ 64 + 1)
        { computation := [], createVM := none, agent := Except.ok "" }))[0]?
      = some (2222, 9301, 7020) ∧
    (successTriples 64
      { qemuCfg := { HostFwd1 := 2222, NetDevConfig := { HostFwd2 := 9301, HostFwd3 := 7020 } } }
      (List.replicate (2 ^ 64 + 1)
        { computation := [], createVM := none, agent := Except.ok "" }))[2 ^ 64]?
      = some (2222, 9301, 7020) ∧
    ¬ List.Pairwise (fun s t => s ≠ t)
      (successTriples 64
        { qemuCfg := { HostFwd1 := 2222, NetDevConfig := { HostFwd2 := 9301, HostFwd3 := 7020 } } }
        (List.replicate (2 ^ 64 + 1)
          { computation := [], createVM := none, agent := Except.ok "" })) := by
  have hwf : Config.wellFormed 64
      { HostFwd1 := 2222, NetDevConfig := { HostFwd2 := 9301, HostFwd3 := 7020 } } := by
    decide
  have key : ∀ n : Nat, 2 ^ 64 < n →
      successTriples 64
        { qemuCfg := { HostFwd1 := 2222, NetDevConfig := { HostFwd2 := 9301, HostFwd3 := 7020 } } }
        (List.replicate n { computation := [], createVM := none, agent := Except.ok "" })
        = (List.range n).map (fun (k : Nat) =>
            (wrapInt 64 (2222 + (k : Int)), wrapInt 64 (9301 + (k : Int)),
              wrapInt 64 (7020 + (k : Int)))) := by
    intro n _
    rw [successTriples_eq 64 (by decide) _ _ hwf, successCount_replicate n _ rfl]
  have h0 : ∀ n : Nat, 2 ^ 64 < n →
      ((List.range n).map (fun k : Nat =>
            (wrapInt 64 (2222 + (k : Int)), wrapInt 64 (9301 + (k : Int)),
              wrapInt 64 (7020 + (k : Int)))))[0]? = some (2222, 9301, 7020) := by
    intro n hn
    rw [List.getElem?_map, List.getElem?_range (by omega)]
    simp only [Option.map_some', Nat.cast_zero, add_zero]
    rfl
  have h1 : ∀ n : Nat, 2 ^ 64 < n →
      ((List.range n).map (fun k : Nat =>
            (wrapInt 64 (2222 + (k : Int)), wrapInt 64 (9301 + (k : Int)),
              wrapInt 64 (7020 + (k : Int)))))[2 ^ 64]? = some (2222, 9301, 7020) := by
    intro n hn
    rw [List.getElem?_map, List.getElem?_range hn]
    simp only [Option.map_some']
    rfl
  have hlt : 2 ^ 64 < 2 ^ 64 + 1 := Nat.lt_succ_self _
  rw [key _ hlt]
  refine ⟨h0 _ hlt, h1 _ hlt, fun hp => ?_⟩
  rw [List.pairwise_iff_getElem] at hp
  have hlen : ((List.range (2 ^ 64 + 1)).map (fun k : Nat =>
            (wrapInt 64 (2222 + (k : Int)), wrapInt 64 (9301 + (k : Int)),
              wrapInt 64 (7020 + (k : Int))))).length = 2 ^ 64 + 1 := by
    rw [List.length_map, List.length_range]
  have := hp 0 (2 ^ 64) (by rw [hlen]; omega) (by rw [hlen]; exact hlt) (by positivity)
  apply this
  have a0 := h0 _ hlt
  have a1 := h1 _ hlt
  rw [List.getElem?_eq_getElem (by rw [hlen]; omega)] at a0
  rw [List.getElem?_eq_getElem (by rw [hlen]; exact hlt)] at a1
  rw [Option.some.inj a0, Option.some.inj a1]

/-- C5, amended: for counters that are Go integers of `w` bits and a sequence
of calls in which at most `2^w` VM creations succeed, the port triples handed
to `qemu.CreateVM` by the calls whose creation succeeded are pairwise
different; a successful creation replaces each counter `x` by `x++`, which is
`x + 1` unless `x` is the largest `w`-bit value; a failed creation leaves the
service unchanged. -/
theorem Run_port_triples_distinct (w : Nat) (ms : managerService) (cs : List RunCall)
    (hw : 0 < w) (hwf : ms.qemuCfg.wellFormed w) (hn : successCount cs ≤ 2 ^ w) :
    List.Pairwise (fun s t => s ≠ t) (successTriples w ms cs) ∧
    (∀ c : RunCall, c.createVM = none →
      (ms.Run w c).2.qemuCfg.triple =
        (incr w ms.qemuCfg.HostFwd1, incr w ms.qemuCfg.NetDevConfig.HostFwd2,
          incr w ms.qemuCfg.NetDevConfig.HostFwd3)) ∧
    (∀ x : Int, inRange w x → x + 1 < 2 ^ (w - 1) → incr w x = x + 1) ∧
    (∀ (c : RunCall) (err : String), c.createVM = some err → (ms.Run w c).2 = ms) := by
  refine ⟨?_, ?_, ?_, ?_⟩
  · rw [successTriples_eq w hw cs ms hwf, List.pairwise_map]
    refine List.Pairwise.imp_of_mem ?_ (List.pairwise_lt_range (successCount cs))
    intro a b _ hb hab heq
    rw [List.mem_range] at hb
    have h1 := (Prod.mk.inj heq).1
    exact wrapInt_add_ne w _ a b hab (by omega) h1
  · intro c hc
    rw [Run_state_ok w ms c hc]
    rfl
  · intro x hx hlt
    exact wrapInt_of_inRange w hw (x + 1) ⟨by have := hx.1; omega, hlt⟩
  · intro c err hc
    exact Run_state_fail w ms c err hc

/-- Witness for C5, amended: 64-bit counters starting at 2222, 9301 and 7020
and four calls of which three create their VM. -/
theorem Run_port_triples_distinct_witness :
    0 < 64 ∧ examplePorts.qemuCfg.wellFormed 64 ∧ successCount exampleRuns ≤ 2 ^ 64 ∧
    successTriples 64 examplePorts exampleRuns
      = [(2222, 9301, 7020), (2223, 9302, 7021), (2224, 9303, 7022)] ∧
    List.Pairwise (fun s t => s ≠ t) (successTriples 64 examplePorts exampleRuns) :=
  ⟨by decide, by decide, by decide, by decide,
    (Run_port_triples_distinct 64 examplePorts exampleRuns (by decide) (by decide)
      (by decide)).1⟩
